import Mathlib

set_option maxRecDepth 16384

/-!
Verification development for the aya xtask codegen pass
(xtask/src/codegen/aya_bpf.rs).

The program parses the textual output of a binding generator into a syn
syntax tree, walks it with a VisitMut implementation (RewriteBpfHelpers),
deletes every foreign-import block, and synthesizes one wrapper function
per eligible static declaration.  Wrapper synthesis is textual: the
declaration is rendered through the quote macro (proc_macro2 token-stream
printing), the helper name is spliced into the signature with a string
replace of the token sequence fn-space-open-paren, and a body is appended
that transmutes the 1-based call index to the function-pointer type and
calls it.  Wrappers whose text contains printk are wrapped in a block
comment but still appended to the accumulator.

The embedding below mirrors the source:
- machine strings are Lean String values; the Rust str::replace,
  str::contains and str::starts_with are re-implemented on the character
  list (replaceChars is given fuel so that it reduces in the kernel; the
  fuel equals the length of the scanned list, which is always enough
  because each step consumes at least one character);
- panics (unwrap on None, panic!, unreachable!) are modelled with an
  Except PanicKind result;
- the parts of the syn tree that the pass scrutinizes (path last segment,
  angle-bracketed generic arguments, bare-function argument names) are
  modelled structurally; every part that only flows through token-stream
  printing (argument types, function qualifiers, return type, items the
  pass never touches) is carried as its printed token text, exactly the
  string that proc_macro2 Display would produce for it;
- syn guarantees that a parsed type path has at least one segment and the
  code only consults segments.last(), so the model stores that last
  segment directly;
- bindgen emits a flat top-level item list, so the tree is modelled as a
  list of items; foreign items occur only inside foreign-import blocks,
  exactly where syn dispatches visit_foreign_item_static_mut.
-/

/-- Rust str::starts_with on character lists (also the prefix test used by
str::contains and str::replace). -/
def isPre : List Char → List Char → Bool
  | [], _ => true
  | _ :: _, [] => false
  | a :: as, b :: bs => a == b && isPre as bs

/-- Rust str::contains: does pat occur as a contiguous substring. -/
def containsSub (pat : List Char) : List Char → Bool
  | [] => pat.isEmpty
  | c :: rest => isPre pat (c :: rest) || containsSub pat rest

/-- Rust str::replace: replace every leftmost non-overlapping occurrence of
pat by rep, scanning left to right.  The Nat argument is fuel so the
definition is structurally recursive; fuel at least the list length is
always sufficient.  (The Rust empty-pattern behaviour is irrelevant here:
the one call site uses the fixed non-empty pattern fn-space-open-paren.) -/
def replaceChars (pat rep : List Char) : Nat → List Char → List Char
  | _, [] => []
  | 0, l => l
  | fuel+1, c :: rest =>
    if !pat.isEmpty && isPre pat (c :: rest) then
      rep ++ replaceChars pat rep fuel ((c :: rest).drop pat.length)
    else
      c :: replaceChars pat rep fuel rest

/-- String-level wrapper for replaceChars, with sufficient fuel. -/
def strReplace (s pat rep : String) : String :=
  ⟨replaceChars pat.data rep.data s.data.length s.data⟩

/-- String-level wrapper for containsSub. -/
def strContains (s pat : String) : Bool := containsSub pat.data s.data

/-- String-level wrapper for isPre. -/
def strStartsWith (s pre : String) : Bool := isPre pre.data s.data

/-- Concatenate all strings in order (the helpers.rs write loop). -/
def concatAll : List String → String
  | [] => ""
  | s :: r => s ++ concatAll r

/-- Token-stream printing of a comma-punctuated sequence: elements
separated by space-comma-space, empty for the empty sequence. -/
def interComma : List String → String
  | [] => ""
  | [s] => s
  | s :: r => s ++ " , " ++ interComma r

/-- One argument of a syn bare-function type: optional name (syn stores
Option of ident and colon; the code unwraps it) plus the printed token
text of the argument type. -/
structure BareFnArg where
  name : Option String
  tyToks : String
deriving DecidableEq, Repr

/-- A syn Type.BareFn as the pass consumes it: printed qualifier tokens
(lifetimes, unsafety, abi; empty when absent), the argument list, and the
printed return-arrow tokens (empty for the default return). -/
structure BareFn where
  prefixToks : String
  inputs : List BareFnArg
  outputToks : String
deriving DecidableEq, Repr

/-- A syn GenericArgument: either a type that is a bare function, or a
type of any other shape, or a non-type argument; the latter two only ever
flow through token printing, so they carry their printed text. -/
inductive GenArg where
  | typeBareFn (f : BareFn)
  | typeOther (toks : String)
  | otherArg (toks : String)
deriving DecidableEq, Repr

/-- syn PathArguments of the last path segment. -/
inductive PathArguments where
  | noArgs
  | angleBracketed (args : List GenArg)
  | parenthesizedArgs (toks : String)
deriving DecidableEq, Repr

/-- The last segment of a type path: its identifier and arguments. -/
structure PathSegment where
  ident : String
  arguments : PathArguments
deriving DecidableEq, Repr

/-- The declared type of a foreign static: a path type (represented by its
last segment, the only part the pass reads; syn parse guarantees the
segment list is non-empty) or any other type shape. -/
inductive StaticTy where
  | path (lastSeg : PathSegment)
  | other (toks : String)
deriving DecidableEq, Repr

/-- syn ForeignItemStatic: identifier and declared type. -/
structure ForeignItemStatic where
  ident : String
  ty : StaticTy
deriving DecidableEq, Repr

/-- An item inside a foreign-import block; only statics are visited by the
overridden visitor method. -/
inductive ForeignItem where
  | staticItem (s : ForeignItemStatic)
  | otherForeign (toks : String)
deriving DecidableEq, Repr

/-- A top-level item of the parsed file: a foreign-import block (with its
printed abi tokens and contained items), a verbatim token run (the empty
placeholder the pass writes), or any other item carried as printed text. -/
inductive Item where
  | foreignMod (abiToks : String) (items : List ForeignItem)
  | verbatim (toks : String)
  | otherItem (toks : String)
deriving DecidableEq, Repr

/-- Printed token text of one bare-function argument, as syn ToTokens
emits it: name colon type when named, else just the type. -/
def BareFnArg.render (a : BareFnArg) : String :=
  match a.name with
  | some n => n ++ " : " ++ a.tyToks
  | none => a.tyToks

/-- Printed token text of the argument list of a bare-function type. -/
def BareFn.inputsRender (f : BareFn) : String :=
  interComma (f.inputs.map BareFnArg.render)

/-- Printed token text of a generic argument, as proc_macro2 Display
produces it inside the quote template: for a bare-function type the
qualifiers, the fn keyword, the parenthesized argument group (no space
after the opening or before the closing parenthesis, space-separated
tokens inside) and the return tokens, all space-separated. -/
def GenArg.render : GenArg → String
  | .typeBareFn f =>
      (if f.prefixToks = "" then "" else f.prefixToks ++ " ") ++
        "fn (" ++ f.inputsRender ++ ")" ++
        (if f.outputToks = "" then "" else " " ++ f.outputToks)
  | .typeOther toks => toks
  | .otherArg toks => toks

/-- Printed text of the synthesized wrapper body: a brace group (printed
with inner spaces by proc_macro2) that binds f to the transmuted call
index (a usize-suffixed literal) and calls it with the argument names. -/
def bodyStr (fnTy : GenArg) (callIdx : Nat) (names : List String) : String :=
  "\x7b let f : " ++ fnTy.render ++ " = :: core :: mem :: transmute (" ++
    Nat.repr callIdx ++ "usize) ; f (" ++ interComma names ++ ") \x7d"

/-- The synthesized wrapper text before the printk check: the quote
template (pound, bracketed inline-always group, pub, the function type),
with the helper name spliced in by replacing every occurrence of the token
sequence fn-space-open-paren, then the body appended directly. -/
def mkHelper (ident : String) (fnTy : GenArg) (callIdx : Nat)
    (names : List String) : String :=
  strReplace ("# [inline (always)] pub " ++ fnTy.render) "fn ("
      ("fn " ++ ident ++ " (") ++
    bodyStr fnTy callIdx names

/-- The printk suppression step: a wrapper whose text contains printk is
wrapped in a block comment, all others pass through unchanged. -/
def finalizeHelper (h : String) : String :=
  if strContains h "printk" then "/* " ++ h ++ " */" else h

/-- The ways the visitor can panic. -/
inductive PanicKind where
  | unwrapNoGenericArg
  | panicNotAngleBracketed
  | unreachableNotBareFn
  | unwrapUnnamedParam
deriving DecidableEq, Repr

/-- Collect the argument names of a bare-function type; none models the
unwrap panic on the first missing name. -/
def argNames : List BareFnArg → Option (List String)
  | [] => some []
  | a :: rest =>
    match a.name with
    | none => none
    | some n => (argNames rest).map (fun ns => n :: ns)

/-- The overridden visit_foreign_item_static_mut: on a path type whose
ident starts with bpf_ and whose last segment is Option, extract the first
angle-bracketed generic argument, synthesize the wrapper with call index
one past the number of helpers already accumulated, apply the printk
suppression, and append; every other static is left alone.  Error values
model the panic and unwrap paths of the source. -/
def visit_foreign_item_static_mut (helpers : List String)
    (s : ForeignItemStatic) : Except PanicKind (List String) :=
  match s.ty with
  | .other _ => .ok helpers
  | .path lastSeg =>
    if strStartsWith s.ident "bpf_" && lastSeg.ident == "Option" then
      match lastSeg.arguments with
      | .angleBracketed args =>
        match args.head? with
        | none => .error .unwrapNoGenericArg
        | some fnTy =>
          match fnTy with
          | .typeBareFn f =>
            match argNames f.inputs with
            | none => .error .unwrapUnnamedParam
            | some names =>
              .ok (helpers ++
                [finalizeHelper
                  (mkHelper s.ident fnTy (helpers.length + 1) names)])
          | _ => .error .unreachableNotBareFn
      | _ => .error .panicNotAngleBracketed
    else .ok helpers

/-- The default traversal of a foreign-import block: visit each contained
item in order; only statics are affected by the override. -/
def visitForeignItems (helpers : List String) :
    List ForeignItem → Except PanicKind (List String)
  | [] => .ok helpers
  | .staticItem s :: rest =>
    match visit_foreign_item_static_mut helpers s with
    | .error k => .error k
    | .ok h2 => visitForeignItems h2 rest
  | .otherForeign _ :: rest => visitForeignItems helpers rest

/-- The overridden visit_item_mut: first the default traversal of the
children, then, if the item is a foreign-import block, replace it with an
empty verbatim placeholder; every other item is left unchanged. -/
def visit_item_mut (helpers : List String) (item : Item) :
    Except PanicKind (Item × List String) :=
  match item with
  | .foreignMod _ fis =>
    match visitForeignItems helpers fis with
    | .error k => .error k
    | .ok h2 => .ok (.verbatim "", h2)
  | it => .ok (it, helpers)

/-- The item loop of the default visit_file_mut, threading the helper
accumulator through visit_item_mut. -/
def visitItems (helpers : List String) :
    List Item → Except PanicKind (List Item × List String)
  | [] => .ok ([], helpers)
  | it :: rest =>
    match visit_item_mut helpers it with
    | .error k => .error k
    | .ok (it2, h2) =>
      match visitItems h2 rest with
      | .error k => .error k
      | .ok (rest2, h3) => .ok (it2 :: rest2, h3)

/-- Running the RewriteBpfHelpers visitor on a parsed file, starting from
an empty helper accumulator: the rewritten tree plus the accumulated
wrapper texts. -/
def rewriteBpfHelpers (file : List Item) :
    Except PanicKind (List Item × List String) :=
  visitItems [] file

/-- Surface eligibility as the code tests it before touching the generic
arguments: a path type whose last segment is Option and an identifier
starting with bpf_. -/
def surfEligible (s : ForeignItemStatic) : Bool :=
  match s.ty with
  | .path lastSeg => strStartsWith s.ident "bpf_" && lastSeg.ident == "Option"
  | .other _ => false

/-- The data the wrapper is built from, when every step of the extraction
succeeds: the bare-function type found as the first angle-bracketed
argument and its argument names.  none collects every panic path. -/
def extractParts (s : ForeignItemStatic) : Option (BareFn × List String) :=
  match s.ty with
  | .path lastSeg =>
    match lastSeg.arguments with
    | .angleBracketed args =>
      match args.head? with
      | some (.typeBareFn f) => (argNames f.inputs).map (fun ns => (f, ns))
      | _ => none
    | _ => none
  | .other _ => none

/-- The static declarations of a foreign-item list, in order. -/
def staticsOf : List ForeignItem → List ForeignItemStatic
  | [] => []
  | .staticItem s :: r => s :: staticsOf r
  | .otherForeign _ :: r => staticsOf r

/-- All static declarations inside foreign-import blocks of the file, in
traversal order. -/
def foreignStatics : List Item → List ForeignItemStatic
  | [] => []
  | .foreignMod _ fis :: r => staticsOf fis ++ foreignStatics r
  | .verbatim _ :: r => foreignStatics r
  | .otherItem _ :: r => foreignStatics r

/-- Folding the static visitor over a list of statics, threading the
accumulator. -/
def foldStatics (helpers : List String) :
    List ForeignItemStatic → Except PanicKind (List String)
  | [] => .ok helpers
  | s :: r =>
    match visit_foreign_item_static_mut helpers s with
    | .error k => .error k
    | .ok h2 => foldStatics h2 r

/-- Is an item a foreign-import block. -/
def isForeignModB : Item → Bool
  | .foreignMod _ _ => true
  | .verbatim _ => false
  | .otherItem _ => false

/-- The per-item effect of the pass on the tree: foreign-import blocks
become the empty verbatim placeholder, everything else is untouched. -/
def eraseItem : Item → Item
  | .foreignMod _ _ => .verbatim ""
  | .verbatim t => .verbatim t
  | .otherItem t => .otherItem t

/-- Exit status of a subprocess, reduced to the success bit the code can
observe. -/
structure ExitStatus where
  success : Bool
deriving DecidableEq, Repr

/-- Captured output of the generator subprocess; none for an output stream
that is not valid UTF-8 (the from_utf8 error path). -/
structure ProcOutput where
  status : ExitStatus
  stdoutUtf8 : Option String
  stderrUtf8 : Option String
deriving DecidableEq, Repr

/-- How a codegen run can fail: an IO error propagated by the question
mark operator (spawn or file failure), a UTF-8 conversion error, the
explicit bindgen-failed error, the unwrap panic on a parse failure, or a
panic inside the visitor. -/
inductive RunError where
  | ioError
  | utf8Error
  | bindgenFailed (status : ExitStatus)
  | parseUnwrapPanic
  | visitorPanic (k : PanicKind)
deriving DecidableEq, Repr

/-- Observable outcome of a codegen run: lines printed to the error
stream, files written (path and content) in order, and the returned
result. -/
structure RunOutcome where
  stderrLines : List String
  filesWritten : List (String × String)
  result : Except RunError Unit
deriving Repr

/-- The import line written at the head of helpers.rs. -/
def helpersUseLine : String := "use crate::bpf::generated::bindings::*;"

/-- The codegen pipeline after the bindgen command is assembled, with its
external collaborators passed in: the captured bindgen output (error for a
spawn failure), the declaration parser (none models a parse error, which
the code unwraps), the token-stream printer for the rewritten tree, and
the two rustfmt invocations (error for a spawn failure, otherwise the
formatter exit status).  Mirrors the source line by line: stdout UTF-8
conversion, then the success check that prints captured stderr and aborts,
then parse, visit, write bindings.rs, run rustfmt discarding its exit
status, write helpers.rs, run rustfmt discarding its exit status. -/
def codegen (bindgenOut : Except Unit ProcOutput)
    (parseFile : String → Option (List Item))
    (renderTree : List Item → String)
    (fmtBindings fmtHelpers : Except Unit ExitStatus) : RunOutcome :=
  match bindgenOut with
  | .error _ => ⟨[], [], .error .ioError⟩
  | .ok out =>
    match out.stdoutUtf8 with
    | none => ⟨[], [], .error .utf8Error⟩
    | some bindings =>
      if out.status.success = false then
        match out.stderrUtf8 with
        | none => ⟨[], [], .error .utf8Error⟩
        | some errText => ⟨[errText], [], .error (.bindgenFailed out.status)⟩
      else
        match parseFile bindings with
        | none => ⟨[], [], .error .parseUnwrapPanic⟩
        | some tree =>
          match rewriteBpfHelpers tree with
          | .error k => ⟨[], [], .error (.visitorPanic k)⟩
          | .ok (tree2, helpers) =>
            let w1 := ("bpf/aya-bpf/src/bpf/generated/bindings.rs",
                       renderTree tree2)
            match fmtBindings with
            | .error _ => ⟨[], [w1], .error .ioError⟩
            | .ok _ =>
              let w2 := ("bpf/aya-bpf/src/bpf/generated/helpers.rs",
                         helpersUseLine ++ concatAll helpers)
              match fmtHelpers with
              | .error _ => ⟨[], [w1, w2], .error .ioError⟩
              | .ok _ => ⟨[], [w1, w2], .ok ()⟩

/-- The text before the top-level fn-space-open-paren in the printed quote
template for a given bare-function type: the attribute and visibility
tokens followed by the printed qualifiers. -/
def sigHead (f : BareFn) : String :=
  "# [inline (always)] pub " ++
    (if f.prefixToks = "" then "" else f.prefixToks ++ " ")

/-- The text after the top-level fn-space-open-paren in the printed quote
template: the printed argument list, the closing parenthesis and the
printed return tokens. -/
def sigTail (f : BareFn) : String :=
  f.inputsRender ++ ")" ++
    (if f.outputToks = "" then "" else " " ++ f.outputToks)

/-- Modelled from the spec (section 4.2 step 3): the wrapper the spec
describes, with the declaration name inserted once at the top-level fn of
the extracted signature, the signature itself verbatim, the
aggressive-inlining hint, and the transmute-and-call body.  Used as the
refinement target that the synthesized text is compared against. -/
def specSynthWrapper (ident : String) (f : BareFn) (callIdx : Nat)
    (names : List String) : String :=
  sigHead f ++ "fn " ++ ident ++ " (" ++ sigTail f ++
    bodyStr (.typeBareFn f) callIdx names

/-- Scenario input: the bare-function type of bpf_map_lookup_elem as
bindgen prints it, two pointer arguments and a pointer return. -/
def lookupFn : BareFn :=
  ⟨"unsafe extern \"C\"",
   [⟨some "arg0", "* mut :: aya_bpf_cty :: c_void"⟩,
    ⟨some "arg1", "* const :: aya_bpf_cty :: c_void"⟩],
   "-> * mut :: aya_bpf_cty :: c_void"⟩

/-- Scenario input: the eligible static declaration of
bpf_map_lookup_elem. -/
def lookupDecl : ForeignItemStatic :=
  ⟨"bpf_map_lookup_elem",
   .path ⟨"Option", .angleBracketed [.typeBareFn lookupFn]⟩⟩

/-- Scenario input: a non-eligible top-level constant. -/
def constItem : Item := .otherItem "pub const BPF_SOME_CONST : u32 = 7 ;"

/-- Scenario input file: the constant plus a foreign-import block holding
the eligible declaration. -/
def scenarioFile : List Item :=
  [constItem, .foreignMod "\"C\"" [.staticItem lookupDecl]]

/-- Scenario output tree: the constant survives unchanged and the
foreign-import block has become the empty placeholder. -/
def scenarioTree : List Item := [constItem, .verbatim ""]

/-- Scenario output wrapper text for bpf_map_lookup_elem with call
index 1. -/
def lookupExpected : String :=
  "# [inline (always)] pub unsafe extern \"C\" fn bpf_map_lookup_elem (arg0 : * mut :: aya_bpf_cty :: c_void , arg1 : * const :: aya_bpf_cty :: c_void) -> * mut :: aya_bpf_cty :: c_void\x7b let f : unsafe extern \"C\" fn (arg0 : * mut :: aya_bpf_cty :: c_void , arg1 : * const :: aya_bpf_cty :: c_void) -> * mut :: aya_bpf_cty :: c_void = :: core :: mem :: transmute (1usize) ; f (arg0 , arg1) \x7d"

/-- Concrete input for the suppression path: the bare-function type of
bpf_trace_printk. -/
def printkFn : BareFn :=
  ⟨"unsafe extern \"C\"",
   [⟨some "fmt", "* const :: aya_bpf_cty :: c_char"⟩,
    ⟨some "fmt_size", "__u32"⟩],
   "-> :: aya_bpf_cty :: c_long"⟩

/-- Concrete input for the suppression path: the eligible declaration of
bpf_trace_printk, whose synthesized text contains printk. -/
def printkDecl : ForeignItemStatic :=
  ⟨"bpf_trace_printk",
   .path ⟨"Option", .angleBracketed [.typeBareFn printkFn]⟩⟩

/-- Concrete input for the probe-read wrapper used as a witness. -/
def probeReadFn : BareFn :=
  ⟨"unsafe extern \"C\"",
   [⟨some "dst", "* mut :: aya_bpf_cty :: c_void"⟩,
    ⟨some "size", "__u32"⟩,
    ⟨some "src", "* const :: aya_bpf_cty :: c_void"⟩],
   "-> :: aya_bpf_cty :: c_long"⟩

/-- Concrete input for the probe-read wrapper used as a witness. -/
def probeReadDecl : ForeignItemStatic :=
  ⟨"bpf_probe_read",
   .path ⟨"Option", .angleBracketed [.typeBareFn probeReadFn]⟩⟩

/-- Expected probe-read wrapper text at call index 1. -/
def probeReadExpected : String :=
  "# [inline (always)] pub unsafe extern \"C\" fn bpf_probe_read (dst : * mut :: aya_bpf_cty :: c_void , size : __u32 , src : * const :: aya_bpf_cty :: c_void) -> :: aya_bpf_cty :: c_long\x7b let f : unsafe extern \"C\" fn (dst : * mut :: aya_bpf_cty :: c_void , size : __u32 , src : * const :: aya_bpf_cty :: c_void) -> :: aya_bpf_cty :: c_long = :: core :: mem :: transmute (1usize) ; f (dst , size , src) \x7d"

/-- A declaration that passes the surface test (bpf_ name, Option path)
but whose single wrapped argument is not a function type. -/
def c4Decl : ForeignItemStatic :=
  ⟨"bpf_oops", .path ⟨"Option", .angleBracketed [.typeOther "u32"]⟩⟩

/-- Another surface-shaped declaration with a non-function wrapped
argument, for the abort-path witness. -/
def c8Decl : ForeignItemStatic :=
  ⟨"bpf_weird", .path ⟨"Option", .angleBracketed [.typeOther "u64"]⟩⟩

/-- An eligible-shaped declaration whose function type has an unnamed
parameter. -/
def c10Decl : ForeignItemStatic :=
  ⟨"bpf_mystery",
   .path ⟨"Option",
     .angleBracketed
       [.typeBareFn ⟨"unsafe extern \"C\"",
         [⟨none, "* mut :: aya_bpf_cty :: c_void"⟩], ""⟩]⟩⟩

/-- An eligible declaration with a nested bare-function parameter type:
its printed argument tokens contain the fn-space-open-paren sequence. -/
def cbFn : BareFn :=
  ⟨"unsafe extern \"C\"", [⟨some "cb", "unsafe fn (x : u32)"⟩], ""⟩

/-- What the pass actually synthesizes for the nested-function example:
the helper name is spliced into the nested function type as well, so the
extracted signature is not carried verbatim. -/
def cbMangled : String :=
  "# [inline (always)] pub unsafe extern \"C\" fn bpf_set_cb (cb : unsafe fn bpf_set_cb (x : u32))\x7b let f : unsafe extern \"C\" fn (cb : unsafe fn (x : u32)) = :: core :: mem :: transmute (1usize) ; f (cb) \x7d"

theorem isPre_append (a b : List Char) : isPre a (a ++ b) = true := by
  induction a with
  | nil => rfl
  | cons c as ih => simp [isPre, ih]

theorem isPre_iff (a : List Char) :
    ∀ b, isPre a b = true ↔ ∃ t, b = a ++ t := by
  induction a with
  | nil =>
    intro b
    constructor
    · intro _; exact ⟨b, rfl⟩
    · intro _; rfl
  | cons c as ih =>
    intro b
    cases b with
    | nil =>
      constructor
      · intro h; exact absurd h (by simp [isPre])
      · rintro ⟨t, ht⟩; exact absurd ht (by simp)
    | cons d bs =>
      constructor
      · intro h
        have h1 : (c == d) = true ∧ isPre as bs = true := by
          simpa [isPre, Bool.and_eq_true] using h
        obtain ⟨t, ht⟩ := (ih bs).1 h1.2
        have hcd : c = d := by simpa using h1.1
        exact ⟨t, by simp [ht, hcd]⟩
      · rintro ⟨t, ht⟩
        rw [List.cons_append] at ht
        injection ht with h1 h2
        have : isPre as bs = true := (ih bs).2 ⟨t, h2⟩
        simp [isPre, h1, this]

theorem containsSub_iff (p : List Char) :
    ∀ l, containsSub p l = true ↔ ∃ x y, l = x ++ (p ++ y) := by
  intro l
  induction l with
  | nil =>
    constructor
    · intro h
      have hp : p = [] := by simpa [containsSub, List.isEmpty_iff] using h
      exact ⟨[], [], by simp [hp]⟩
    · rintro ⟨x, y, hxy⟩
      have hnil : p = [] := by
        rcases List.append_eq_nil.mp hxy.symm with ⟨_, h2⟩
        exact (List.append_eq_nil.mp h2).1
      simp [containsSub, hnil]
  | cons c rest ih =>
    constructor
    · intro h
      have h1 : isPre p (c :: rest) = true ∨ containsSub p rest = true := by
        simpa [containsSub, Bool.or_eq_true] using h
      cases h1 with
      | inl h2 =>
        obtain ⟨t, ht⟩ := (isPre_iff p (c :: rest)).1 h2
        exact ⟨[], t, by simpa using ht⟩
      | inr h2 =>
        obtain ⟨x, y, hxy⟩ := ih.1 h2
        exact ⟨c :: x, y, by simp [hxy]⟩
    · rintro ⟨x, y, hxy⟩
      cases x with
      | nil =>
        have hpre : isPre p (c :: rest) = true := by
          apply (isPre_iff p (c :: rest)).2
          exact ⟨y, by simpa using hxy⟩
        simp [containsSub, hpre]
      | cons a x' =>
        rw [List.cons_append] at hxy
        injection hxy with _ h2
        have : containsSub p rest = true := ih.2 ⟨x', y, h2⟩
        simp [containsSub, this]

theorem replaceChars_id_of_not_contains (p r : List Char) :
    ∀ fuel l, containsSub p l = false → replaceChars p r fuel l = l := by
  intro fuel
  induction fuel with
  | zero => intro l _; cases l <;> rfl
  | succ f ih =>
    intro l h
    cases l with
    | nil => rfl
    | cons c rest =>
      have h1 : isPre p (c :: rest) = false ∧ containsSub p rest = false := by
        constructor
        · cases hb : isPre p (c :: rest) with
          | false => rfl
          | true => rw [containsSub, hb] at h; simp at h
        · cases hb : containsSub p rest with
          | false => rfl
          | true => rw [containsSub, hb] at h; simp at h
      simp [replaceChars, h1.1, ih rest h1.2]

theorem append_eq_append_of_le {α : Type} :
    ∀ (c a b d : List α), a ++ b = c ++ d → c.length ≤ a.length →
      ∃ m, a = c ++ m ∧ d = m ++ b := by
  intro c
  induction c with
  | nil =>
    intro a b d h _
    exact ⟨a, by simp, by simpa using h.symm⟩
  | cons c0 c' ih =>
    intro a b d h hle
    cases a with
    | nil => simp at hle
    | cons a0 a' =>
      rw [List.cons_append, List.cons_append] at h
      injection h with h0 h1
      obtain ⟨m, hm1, hm2⟩ := ih a' b d h1 (by simpa using hle)
      exact ⟨m, by simp [h0, hm1], hm2⟩

theorem no_occ_head (p x y : List Char)
    (hx : containsSub p x = false)
    (hov : ∀ j, j < p.length → 0 < j → isPre (p.drop j) p = false) :
    ∀ i, i < x.length → isPre p ((x ++ (p ++ y)).drop i) = false := by
  intro i hi
  cases hb : isPre p ((x ++ (p ++ y)).drop i) with
  | false => rfl
  | true =>
    exfalso
    obtain ⟨t, hdrop⟩ := (isPre_iff p ((x ++ (p ++ y)).drop i)).1 hb
    have hassoc : (x ++ (p ++ y)).drop i = x.drop i ++ (p ++ y) :=
      List.drop_append_of_le_length (le_of_lt hi)
    have heq : x.drop i ++ (p ++ y) = p ++ t := by rw [← hassoc, hdrop]
    have hulen : (x.drop i).length = x.length - i := List.length_drop i x
    have hune : x.drop i ≠ [] := by
      apply List.ne_nil_of_length_pos
      omega
    have hupos : 0 < (x.drop i).length := List.length_pos.mpr hune
    rcases Nat.lt_or_ge (x.drop i).length p.length with hlt | hge
    · obtain ⟨m, hm1, hm2⟩ :=
        append_eq_append_of_le (x.drop i) p t (p ++ y) heq.symm (le_of_lt hlt)
      have hmlen : m.length = p.length - (x.drop i).length := by
        have := congrArg List.length hm1
        simp at this
        omega
      obtain ⟨m2, hp2, _⟩ :=
        append_eq_append_of_le m p y t (by rw [hm2]) (by omega)
      have hmp : isPre m p = true := (isPre_iff m p).2 ⟨m2, hp2⟩
      have hdropu : p.drop (x.drop i).length = m := by
        rw [hm1]
        simp
      have hfalse := hov (x.drop i).length hlt hupos
      rw [hdropu, hmp] at hfalse
      exact Bool.true_eq_false.mp hfalse
    · obtain ⟨m, hm1, hm2⟩ :=
        append_eq_append_of_le p (x.drop i) (p ++ y) t heq hge
      have hxfull : x = x.take i ++ (p ++ m) := by
        conv_lhs => rw [← List.take_append_drop i x]
        rw [hm1]
      have : containsSub p x = true := (containsSub_iff p x).2 ⟨x.take i, m, hxfull⟩
      rw [this] at hx
      exact Bool.true_eq_false.mp hx

theorem replaceChars_cons_eq (p r : List Char) (f : Nat) (c : Char)
    (rest : List Char) :
    replaceChars p r (f + 1) (c :: rest) =
      if !p.isEmpty && isPre p (c :: rest) then
        r ++ replaceChars p r f ((c :: rest).drop p.length)
      else c :: replaceChars p r f rest := rfl

theorem replaceChars_single (p r y : List Char) (hp : p.isEmpty = false)
    (hy : containsSub p y = false) :
    ∀ (x : List Char) (fuel : Nat),
      (x ++ (p ++ y)).length ≤ fuel →
      (∀ i, i < x.length → isPre p ((x ++ (p ++ y)).drop i) = false) →
      replaceChars p r fuel (x ++ (p ++ y)) = x ++ (r ++ y) := by
  intro x
  induction x with
  | nil =>
    intro fuel hf _
    cases p with
    | nil => simp at hp
    | cons p0 p' =>
      cases fuel with
      | zero => simp at hf
      | succ f =>
        rw [List.nil_append, List.nil_append]
        have hlist : (p0 :: p') ++ y = p0 :: (p' ++ y) := List.cons_append p0 p' y
        rw [hlist, replaceChars_cons_eq]
        have hpre : isPre (p0 :: p') (p0 :: (p' ++ y)) = true := by
          have h1 := isPre_append (p0 :: p') y
          rw [hlist] at h1
          exact h1
        have hcondT : (!(p0 :: p').isEmpty && isPre (p0 :: p') (p0 :: (p' ++ y))) = true := by
          simp [hpre]
        rw [hcondT]
        have hdrop : (p0 :: (p' ++ y)).drop (p0 :: p').length = y := by
          rw [← hlist]
          exact List.drop_left (p0 :: p') y
        simp only [if_true]
        rw [hdrop, replaceChars_id_of_not_contains (p0 :: p') r f y hy]
  | cons c x' ih =>
    intro fuel hf hocc
    cases fuel with
    | zero => simp at hf
    | succ f =>
      have hassoc : (c :: x') ++ (p ++ y) = c :: (x' ++ (p ++ y)) :=
        List.cons_append c x' (p ++ y)
      rw [hassoc, replaceChars_cons_eq]
      have h0 : isPre p (c :: (x' ++ (p ++ y))) = false := by
        have h1 := hocc 0 (by simp)
        rw [hassoc] at h1
        simpa using h1
      have hcondF : (!p.isEmpty && isPre p (c :: (x' ++ (p ++ y)))) = false := by
        simp [h0]
      rw [hcondF]
      have hf' : (x' ++ (p ++ y)).length ≤ f := by
        rw [hassoc] at hf
        simpa using Nat.le_of_succ_le_succ hf
      have hocc' : ∀ i, i < x'.length →
          isPre p ((x' ++ (p ++ y)).drop i) = false := by
        intro i hi
        have h1 := hocc (i + 1) (by simpa using Nat.succ_lt_succ hi)
        rw [hassoc] at h1
        simpa using h1
      simp only [Bool.false_eq_true, if_false]
      rw [ih f hf' hocc']
      exact (List.cons_append c x' (r ++ y)).symm

theorem strData_append (a b : String) : (a ++ b).data = a.data ++ b.data := rfl

theorem strData_nil : ("" : String).data = [] := rfl

theorem strExt {a b : String} (h : a.data = b.data) : a = b := by
  cases a
  cases b
  exact congrArg String.mk h

theorem strAppend_assoc (a b c : String) : a ++ b ++ c = a ++ (b ++ c) := by
  apply strExt
  simp only [strData_append, List.append_assoc]

theorem str_nil_append (s : String) : "" ++ s = s := by
  apply strExt
  simp only [strData_append, strData_nil, List.nil_append]

theorem str_append_nil (s : String) : s ++ "" = s := by
  apply strExt
  simp only [strData_append, strData_nil, List.append_nil]

theorem strReplace_fnParen (X Y rep : String)
    (hx : strContains X "fn (" = false)
    (hy : strContains Y "fn (" = false) :
    strReplace (X ++ ("fn (" ++ Y)) "fn (" rep = X ++ (rep ++ Y) := by
  have hdata : (X ++ ("fn (" ++ Y)).data =
      X.data ++ (("fn (" : String).data ++ Y.data) := by
    rw [strData_append, strData_append]
  apply strExt
  show replaceChars ("fn (" : String).data rep.data
      (X ++ ("fn (" ++ Y)).data.length (X ++ ("fn (" ++ Y)).data =
      (X ++ (rep ++ Y)).data
  rw [hdata, strData_append, strData_append]
  exact replaceChars_single ("fn (" : String).data rep.data Y.data rfl hy
    X.data _ (le_refl _) (no_occ_head _ X.data Y.data hx (by decide))

theorem strSpaceFn (z : String) :
    (" fn (" : String) ++ z = " " ++ ("fn (" ++ z) := by
  apply strExt
  simp only [strData_append]
  rfl

theorem tyS0_decomp (f : BareFn) :
    "# [inline (always)] pub " ++ GenArg.render (.typeBareFn f) =
      sigHead f ++ ("fn (" ++ sigTail f) := by
  unfold GenArg.render sigHead sigTail
  by_cases h1 : f.prefixToks = "" <;> by_cases h2 : f.outputToks = "" <;>
    simp [h1, h2, strAppend_assoc, str_append_nil, str_nil_append] <;>
    rw [strSpaceFn]

theorem mkHelper_eq_spec (ident : String) (f : BareFn) (callIdx : Nat)
    (names : List String)
    (hh : strContains (sigHead f) "fn (" = false)
    (ht : strContains (sigTail f) "fn (" = false) :
    mkHelper ident (.typeBareFn f) callIdx names =
      specSynthWrapper ident f callIdx names := by
  unfold mkHelper specSynthWrapper
  rw [tyS0_decomp f]
  rw [strReplace_fnParen (sigHead f) (sigTail f) ("fn " ++ ident ++ " (") hh ht]
  simp [strAppend_assoc]

theorem argNames_none_of_unnamed :
    ∀ (l : List BareFnArg), (∃ a ∈ l, a.name = none) → argNames l = none := by
  intro l
  induction l with
  | nil => rintro ⟨a, ha, _⟩; cases ha
  | cons b rest ih =>
    rintro ⟨a, ha, hname⟩
    cases List.mem_cons.mp ha with
    | inl h =>
      rw [argNames, show b.name = none from h ▸ hname]
    | inr h =>
      cases hb : b.name with
      | none => rw [argNames, hb]
      | some n => rw [argNames, hb, ih ⟨a, h, hname⟩]; rfl

theorem visitStatic_cases (hs : List String) (s : ForeignItemStatic) :
    (surfEligible s = false ∧ visit_foreign_item_static_mut hs s = .ok hs) ∨
    (surfEligible s = true ∧ ∃ f names, extractParts s = some (f, names) ∧
      visit_foreign_item_static_mut hs s =
        .ok (hs ++ [finalizeHelper
          (mkHelper s.ident (.typeBareFn f) (hs.length + 1) names)])) ∨
    (surfEligible s = true ∧ extractParts s = none ∧
      ∃ k, visit_foreign_item_static_mut hs s = .error k) := by
  obtain ⟨ident, ty⟩ := s
  cases ty with
  | other t => exact Or.inl ⟨rfl, rfl⟩
  | path seg =>
    obtain ⟨segid, segargs⟩ := seg
    by_cases hc : (strStartsWith ident "bpf_" && segid == "Option") = true
    · have hsurf : surfEligible ⟨ident, .path ⟨segid, segargs⟩⟩ = true := by
        simpa [surfEligible] using hc
      cases segargs with
      | noArgs =>
        refine Or.inr (Or.inr ⟨hsurf, rfl, .panicNotAngleBracketed, ?_⟩)
        simp [visit_foreign_item_static_mut, hc]
      | parenthesizedArgs tk =>
        refine Or.inr (Or.inr ⟨hsurf, rfl, .panicNotAngleBracketed, ?_⟩)
        simp [visit_foreign_item_static_mut, hc]
      | angleBracketed args =>
        cases args with
        | nil =>
          refine Or.inr (Or.inr ⟨hsurf, rfl, .unwrapNoGenericArg, ?_⟩)
          simp [visit_foreign_item_static_mut, hc]
        | cons g rest =>
          cases g with
          | typeBareFn f =>
            cases hnames : argNames f.inputs with
            | none =>
              refine Or.inr (Or.inr ⟨hsurf, ?_, .unwrapUnnamedParam, ?_⟩)
              · simp [extractParts, hnames]
              · simp [visit_foreign_item_static_mut, hc, hnames]
            | some ns =>
              refine Or.inr (Or.inl ⟨hsurf, f, ns, ?_, ?_⟩)
              · simp [extractParts, hnames]
              · simp [visit_foreign_item_static_mut, hc, hnames]
          | typeOther tk =>
            refine Or.inr (Or.inr ⟨hsurf, ?_, .unreachableNotBareFn, ?_⟩)
            · simp [extractParts]
            · simp [visit_foreign_item_static_mut, hc]
          | otherArg tk =>
            refine Or.inr (Or.inr ⟨hsurf, ?_, .unreachableNotBareFn, ?_⟩)
            · simp [extractParts]
            · simp [visit_foreign_item_static_mut, hc]
    · have hcf : (strStartsWith ident "bpf_" && segid == "Option") = false :=
        Bool.not_eq_true _ ▸ (by simpa using hc)
      refine Or.inl ⟨by simpa [surfEligible] using hcf, ?_⟩
      simp [visit_foreign_item_static_mut, hcf]

theorem visitStatic_ok_elim (hs : List String) (s : ForeignItemStatic)
    (h2 : List String)
    (hok : visit_foreign_item_static_mut hs s = .ok h2) :
    h2 = hs ∨
    ∃ f names, surfEligible s = true ∧ extractParts s = some (f, names) ∧
      h2 = hs ++ [finalizeHelper
        (mkHelper s.ident (.typeBareFn f) (hs.length + 1) names)] := by
  rcases visitStatic_cases hs s with ⟨_, h⟩ | ⟨he, f, names, hp, h⟩ | ⟨_, _, k, h⟩
  · left
    have := h.symm.trans hok
    injection this with hh
    exact hh.symm
  · right
    refine ⟨f, names, he, hp, ?_⟩
    have := h.symm.trans hok
    injection this with hh
    exact hh.symm
  · exact absurd (h.symm.trans hok) (by simp)

theorem visitForeignItems_eq :
    ∀ (fis : List ForeignItem) (hs : List String),
      visitForeignItems hs fis = foldStatics hs (staticsOf fis) := by
  intro fis
  induction fis with
  | nil => intro hs; rfl
  | cons fi rest ih =>
    intro hs
    cases fi with
    | staticItem s =>
      simp only [visitForeignItems, staticsOf, foldStatics]
      cases hM : visit_foreign_item_static_mut hs s with
      | error k => rfl
      | ok h2 => exact ih h2
    | otherForeign tk =>
      simp only [visitForeignItems, staticsOf]
      exact ih hs

theorem foldStatics_append :
    ∀ (a b : List ForeignItemStatic) (hs : List String),
      foldStatics hs (a ++ b) =
        match foldStatics hs a with
        | .error k => .error k
        | .ok h2 => foldStatics h2 b := by
  intro a
  induction a with
  | nil => intro b hs; rfl
  | cons s rest ih =>
    intro b hs
    simp only [List.cons_append, foldStatics]
    cases hM : visit_foreign_item_static_mut hs s with
    | error k => rfl
    | ok h2 => exact ih b h2

theorem eraseItem_not_mod (it : Item) : isForeignModB (eraseItem it) = false := by
  cases it <;> rfl

theorem visitItems_ok :
    ∀ (file : List Item) (hs : List String) (t : List Item) (hs2 : List String),
      visitItems hs file = .ok (t, hs2) →
      t = file.map eraseItem ∧ foldStatics hs (foreignStatics file) = .ok hs2 := by
  intro file
  induction file with
  | nil =>
    intro hs t hs2 h
    simp only [visitItems] at h
    injection h with hpair
    injection hpair with ht hh
    subst ht
    subst hh
    exact ⟨rfl, rfl⟩
  | cons it rest ih =>
    intro hs t hs2 h
    cases it with
    | foreignMod abi fis =>
      cases hM : visitForeignItems hs fis with
      | error k =>
        simp only [visitItems, visit_item_mut, hM] at h
        exact Except.noConfusion h
      | ok hmid =>
        cases hR : visitItems hmid rest with
        | error k =>
          simp only [visitItems, visit_item_mut, hM, hR] at h
          exact Except.noConfusion h
        | ok pr =>
          obtain ⟨rest2, h3⟩ := pr
          simp only [visitItems, visit_item_mut, hM, hR] at h
          injection h with hpair
          injection hpair with ht hh
          subst ht
          subst hh
          obtain ⟨hmap, hfold⟩ := ih hmid rest2 h3 hR
          constructor
          · simp [hmap, eraseItem]
          · simp only [foreignStatics]
            rw [foldStatics_append]
            rw [show foldStatics hs (staticsOf fis) = .ok hmid from
              (visitForeignItems_eq fis hs).symm.trans hM]
            exact hfold
    | verbatim tk =>
      cases hR : visitItems hs rest with
      | error k =>
        simp only [visitItems, visit_item_mut, hR] at h
        exact Except.noConfusion h
      | ok pr =>
        obtain ⟨rest2, h3⟩ := pr
        simp only [visitItems, visit_item_mut, hR] at h
        injection h with hpair
        injection hpair with ht hh
        subst ht
        subst hh
        obtain ⟨hmap, hfold⟩ := ih hs rest2 h3 hR
        constructor
        · simp [hmap, eraseItem]
        · simpa [foreignStatics] using hfold
    | otherItem tk =>
      cases hR : visitItems hs rest with
      | error k =>
        simp only [visitItems, visit_item_mut, hR] at h
        exact Except.noConfusion h
      | ok pr =>
        obtain ⟨rest2, h3⟩ := pr
        simp only [visitItems, visit_item_mut, hR] at h
        injection h with hpair
        injection hpair with ht hh
        subst ht
        subst hh
        obtain ⟨hmap, hfold⟩ := ih hs rest2 h3 hR
        constructor
        · simp [hmap, eraseItem]
        · simpa [foreignStatics] using hfold

theorem foldStatics_index :
    ∀ (ss : List ForeignItemStatic) (hs hs2 : List String),
      foldStatics hs ss = .ok hs2 →
      ∃ ext, hs2 = hs ++ ext ∧
        ∀ i, ∀ hilt : i < ext.length,
          ∃ s, s ∈ ss ∧ ∃ f names, surfEligible s = true ∧
            extractParts s = some (f, names) ∧
            ext[i] = finalizeHelper
              (mkHelper s.ident (.typeBareFn f) (hs.length + i + 1) names) := by
  intro ss
  induction ss with
  | nil =>
    intro hs hs2 h
    simp only [foldStatics, Except.ok.injEq] at h
    refine ⟨[], by simp [h], ?_⟩
    intro i hilt
    exact absurd hilt (by simp)
  | cons s rest ih =>
    intro hs hs2 h
    cases hM : visit_foreign_item_static_mut hs s with
    | error k =>
      simp only [foldStatics, hM] at h
      exact Except.noConfusion h
    | ok hmid =>
      simp only [foldStatics, hM] at h
      rcases visitStatic_ok_elim hs s hmid hM with heq | ⟨f, names, hse, hsp, heq⟩
      · rw [heq] at h
        obtain ⟨ext, hext, hidx⟩ := ih hs hs2 h
        refine ⟨ext, hext, ?_⟩
        intro i hilt
        obtain ⟨s', hmem, f', names', hse', hsp', hval⟩ := hidx i hilt
        exact ⟨s', List.mem_cons_of_mem s hmem, f', names', hse', hsp', hval⟩
      · obtain ⟨ext, hext, hidx⟩ := ih hmid hs2 h
        refine ⟨finalizeHelper
            (mkHelper s.ident (.typeBareFn f) (hs.length + 1) names) :: ext,
          ?_, ?_⟩
        · rw [hext, heq]
          simp
        · intro i hilt
          cases i with
          | zero =>
            refine ⟨s, List.mem_cons_self s rest, f, names, hse, hsp, ?_⟩
            simp
          | succ i2 =>
            have hilt2 : i2 < ext.length := by simpa using hilt
            obtain ⟨s', hmem, f', names', hse', hsp', hval⟩ := hidx i2 hilt2
            refine ⟨s', List.mem_cons_of_mem s hmem, f', names', hse', hsp', ?_⟩
            have hlen : hmid.length = hs.length + 1 := by
              rw [heq]
              simp
            have hixeq : hmid.length + i2 + 1 = hs.length + (i2 + 1) + 1 := by
              omega
            rw [List.getElem_cons_succ, hval, hixeq]

theorem eraseItem_id_of_not_mod (it : Item) (h : isForeignModB it = false) :
    eraseItem it = it := by
  cases it with
  | foreignMod a b => simp [isForeignModB] at h
  | verbatim t => rfl
  | otherItem t => rfl

theorem eraseItem_of_mod (it : Item) (h : isForeignModB it = true) :
    eraseItem it = .verbatim "" := by
  cases it with
  | foreignMod a b => rfl
  | verbatim t => simp [isForeignModB] at h
  | otherItem t => simp [isForeignModB] at h

/-- C1: whenever the pass completes on an input tree, the wrapper at
position i of the helper accumulator was synthesized for an eligible
static of the input with call index i + 1: call indices form the strictly
increasing, gap-free sequence 1, 2, 3, ... in first-visit order, and each
equals the number of helpers already extracted plus one; suppressed
wrappers are included because the printk check runs after the index is
taken and the wrapper is still appended. -/
theorem c1_call_indices (file tree : List Item) (helpers : List String)
    (hrun : rewriteBpfHelpers file = .ok (tree, helpers)) :
    ∀ i, ∀ hi : i < helpers.length,
      ∃ s, s ∈ foreignStatics file ∧ ∃ f names, surfEligible s = true ∧
        extractParts s = some (f, names) ∧
        helpers[i] = finalizeHelper
          (mkHelper s.ident (.typeBareFn f) (i + 1) names) := by
  have h1 := visitItems_ok file [] tree helpers hrun
  obtain ⟨ext, hext, hidx⟩ := foldStatics_index (foreignStatics file) [] helpers h1.2
  have hext2 : helpers = ext := by simpa using hext
  intro i hi
  have hi2 : i < ext.length := by rw [← hext2]; exact hi
  obtain ⟨s, hmem, f, names, hse, hsp, hval⟩ := hidx i hi2
  refine ⟨s, hmem, f, names, hse, hsp, ?_⟩
  simp only [hext2]
  simpa using hval

/-- Witness for C1: the scenario run extracts bpf_map_lookup_elem with
call index 1 at position 0. -/
theorem c1_call_indices_witness :
    ∃ s, s ∈ foreignStatics scenarioFile ∧ ∃ f names,
      surfEligible s = true ∧ extractParts s = some (f, names) ∧
      [lookupExpected][0] = finalizeHelper
        (mkHelper s.ident (.typeBareFn f) (0 + 1) names) :=
  c1_call_indices scenarioFile scenarioTree [lookupExpected] (by rfl) 0
    (by decide)

/-- C2 (amended): for every eligible declaration whose printed qualifier
and parameter or return token texts do not themselves contain the token
sequence fn-space-open-paren, the synthesized wrapper carries the
declaration name, the extracted signature verbatim, the
aggressive-inlining hint and the transmute-and-call body, exactly the
wrapper the spec describes; and on the concrete scenario input the pass
produces exactly the expected bpf_map_lookup_elem wrapper with call
index 1 invoked with arg0 and arg1.  (Without that proviso the textual
replacement also splices the name into nested bare-function tokens, see
the counterexample.) -/
theorem c2_wrapper_shape (ident : String) (f : BareFn) (callIdx : Nat)
    (names : List String)
    (hh : strContains (sigHead f) "fn (" = false)
    (ht : strContains (sigTail f) "fn (" = false) :
    mkHelper ident (.typeBareFn f) callIdx names =
      specSynthWrapper ident f callIdx names ∧
    rewriteBpfHelpers scenarioFile = .ok (scenarioTree, [lookupExpected]) :=
  ⟨mkHelper_eq_spec ident f callIdx names hh ht, by rfl⟩

/-- Witness for C2 at the bpf_map_lookup_elem declaration. -/
theorem c2_wrapper_shape_witness :
    mkHelper "bpf_map_lookup_elem" (.typeBareFn lookupFn) 1 ["arg0", "arg1"] =
      specSynthWrapper "bpf_map_lookup_elem" lookupFn 1 ["arg0", "arg1"] ∧
    rewriteBpfHelpers scenarioFile = .ok (scenarioTree, [lookupExpected]) :=
  c2_wrapper_shape "bpf_map_lookup_elem" lookupFn 1 ["arg0", "arg1"]
    (by decide) (by decide)

/-- Counterexample to C2 as stated: the eligible declaration bpf_set_cb
has a parameter whose own type is a bare-function type; the synthesized
wrapper splices the helper name into that nested type too, so the
extracted signature is not carried verbatim. -/
theorem c2_counterexample :
    surfEligible ⟨"bpf_set_cb",
        .path ⟨"Option", .angleBracketed [.typeBareFn cbFn]⟩⟩ = true ∧
    extractParts ⟨"bpf_set_cb",
        .path ⟨"Option", .angleBracketed [.typeBareFn cbFn]⟩⟩ =
      some (cbFn, ["cb"]) ∧
    mkHelper "bpf_set_cb" (.typeBareFn cbFn) 1 ["cb"] = cbMangled ∧
    mkHelper "bpf_set_cb" (.typeBareFn cbFn) 1 ["cb"] ≠
      specSynthWrapper "bpf_set_cb" cbFn 1 ["cb"] := by
  refine ⟨rfl, rfl, rfl, ?_⟩
  decide

/-- C3: whenever the pass completes, the output tree is the input with
every foreign-import block replaced by the empty verbatim placeholder and
everything else untouched, so no foreign-import block survives; and the
helper accumulator equals the fold of the static visitor over exactly the
statics inside the blocks, so the children of each block were processed
even though the block itself is deleted. -/
theorem c3_foreign_mods_deleted (file tree : List Item)
    (helpers : List String)
    (hrun : rewriteBpfHelpers file = .ok (tree, helpers)) :
    tree = file.map eraseItem ∧
    (∀ it, it ∈ tree → isForeignModB it = false) ∧
    foldStatics [] (foreignStatics file) = .ok helpers := by
  obtain ⟨hmap, hfold⟩ := visitItems_ok file [] tree helpers hrun
  refine ⟨hmap, ?_, hfold⟩
  intro it hmem
  rw [hmap] at hmem
  obtain ⟨a, _, ha⟩ := List.mem_map.mp hmem
  rw [← ha]
  exact eraseItem_not_mod a

/-- Witness for C3 at the concrete scenario file. -/
theorem c3_foreign_mods_deleted_witness :
    scenarioTree = scenarioFile.map eraseItem ∧
    (∀ it, it ∈ scenarioTree → isForeignModB it = false) ∧
    foldStatics [] (foreignStatics scenarioFile) = .ok [lookupExpected] :=
  c3_foreign_mods_deleted scenarioFile scenarioTree [lookupExpected] (by rfl)

/-- C4 (amended): a static is extracted exactly when it passes the
surface test (bpf_ name and Option path) and its first angle-bracketed
argument is a bare-function type with all parameters named; a static
failing the surface test is left untouched and processing continues, but
a static passing the surface test whose wrapped argument is missing, not
a function type, or has an unnamed parameter makes the pass abort with a
panic rather than being left untouched. -/
theorem c4_eligibility (hs : List String) (s : ForeignItemStatic) :
    (surfEligible s = false → visit_foreign_item_static_mut hs s = .ok hs) ∧
    (∀ f names, surfEligible s = true → extractParts s = some (f, names) →
      visit_foreign_item_static_mut hs s =
        .ok (hs ++ [finalizeHelper
          (mkHelper s.ident (.typeBareFn f) (hs.length + 1) names)])) ∧
    (surfEligible s = true → extractParts s = none →
      ∃ k, visit_foreign_item_static_mut hs s = .error k) := by
  rcases visitStatic_cases hs s with ⟨hse, hv⟩ | ⟨hse, f, names, hsp, hv⟩ |
    ⟨hse, hsp, k, hv⟩
  · refine ⟨fun _ => hv, ?_, ?_⟩
    · intro f names hT _
      rw [hse] at hT
      exact absurd hT (by simp)
    · intro hT _
      rw [hse] at hT
      exact absurd hT (by simp)
  · refine ⟨?_, ?_, ?_⟩
    · intro hF
      rw [hse] at hF
      exact absurd hF (by simp)
    · intro f2 names2 _ hsp2
      rw [hsp] at hsp2
      injection hsp2 with hpair
      injection hpair with hf hn
      rw [← hf, ← hn]
      exact hv
    · intro _ hnone
      rw [hsp] at hnone
      exact absurd hnone (by simp)
  · refine ⟨?_, ?_, fun _ _ => ⟨k, hv⟩⟩
    · intro hF
      rw [hse] at hF
      exact absurd hF (by simp)
    · intro f names _ hsome
      rw [hsp] at hsome
      exact absurd hsome (by simp)

/-- Witness for C4: the eligible bpf_probe_read declaration is extracted
with call index 1. -/
theorem c4_eligibility_witness :
    visit_foreign_item_static_mut [] probeReadDecl =
      .ok [probeReadExpected] :=
  ((c4_eligibility [] probeReadDecl).2.1 probeReadFn ["dst", "size", "src"]
    (by rfl) (by rfl)).trans (by rfl)

/-- Counterexample to C4 as stated: bpf_oops declares Option of a
non-function type; it fails the claimed eligibility predicate, so the
claim says it is left untouched, but the pass panics on it instead. -/
theorem c4_counterexample :
    surfEligible c4Decl = true ∧
    visit_foreign_item_static_mut [] c4Decl =
      .error .unreachableNotBareFn ∧
    visit_foreign_item_static_mut [] c4Decl ≠ .ok [] := by
  refine ⟨rfl, rfl, ?_⟩
  intro hcon
  rw [show visit_foreign_item_static_mut [] c4Decl =
    .error .unreachableNotBareFn from rfl] at hcon
  exact Except.noConfusion hcon

/-- C5: an eligible declaration whose synthesized wrapper text contains
printk has the whole text wrapped in a block comment and the commented
text is still appended to the accumulator. -/
theorem c5_printk_suppressed (hs : List String) (s : ForeignItemStatic)
    (f : BareFn) (names : List String)
    (h1 : surfEligible s = true)
    (h2 : extractParts s = some (f, names))
    (h3 : strContains
      (mkHelper s.ident (.typeBareFn f) (hs.length + 1) names)
      "printk" = true) :
    visit_foreign_item_static_mut hs s =
      .ok (hs ++ ["/* " ++
        mkHelper s.ident (.typeBareFn f) (hs.length + 1) names ++ " */"]) := by
  rcases visitStatic_cases hs s with ⟨hse, _⟩ | ⟨_, f2, names2, hsp, hv⟩ |
    ⟨_, hsp, _, _⟩
  · rw [h1] at hse
    exact absurd hse (by simp)
  · rw [h2] at hsp
    injection hsp with hpair
    injection hpair with hf hn
    subst hf
    subst hn
    rw [hv]
    unfold finalizeHelper
    rw [h3]
    simp
  · rw [h2] at hsp
    exact absurd hsp (by simp)

/-- Witness for C5 at the bpf_trace_printk declaration. -/
theorem c5_printk_suppressed_witness :
    visit_foreign_item_static_mut [] printkDecl =
      .ok ([] ++ ["/* " ++
        mkHelper printkDecl.ident (.typeBareFn printkFn)
          (List.length ([] : List String) + 1) ["fmt", "fmt_size"] ++ " */"]) :=
  c5_printk_suppressed [] printkDecl printkFn ["fmt", "fmt_size"]
    (by rfl) (by rfl) (by decide)

/-- C6: whenever the pass completes, an input item that is not a
foreign-import block reappears unchanged at its position in the output
tree, a foreign-import block position holds the empty placeholder (so its
contents, eligible or not, are gone from the primary artifact), and every
accumulated wrapper text comes from an eligible static inside some
foreign-import block of the input, so nothing else can reach the
secondary artifact. -/
theorem c6_frame (file tree : List Item) (helpers : List String)
    (hrun : rewriteBpfHelpers file = .ok (tree, helpers)) :
    (∀ i, ∀ hi : i < file.length, isForeignModB file[i] = false →
      tree[i]? = some file[i]) ∧
    (∀ i, ∀ hi : i < file.length, isForeignModB file[i] = true →
      tree[i]? = some (.verbatim "")) ∧
    (∀ w, w ∈ helpers → ∃ s, s ∈ foreignStatics file ∧
      ∃ f names idx, surfEligible s = true ∧
        extractParts s = some (f, names) ∧
        w = finalizeHelper (mkHelper s.ident (.typeBareFn f) idx names)) := by
  obtain ⟨hmap, hfold⟩ := visitItems_ok file [] tree helpers hrun
  refine ⟨?_, ?_, ?_⟩
  · intro i hi hmod
    rw [hmap, List.getElem?_map, List.getElem?_eq_getElem hi]
    simp [eraseItem_id_of_not_mod file[i] hmod]
  · intro i hi hmod
    rw [hmap, List.getElem?_map, List.getElem?_eq_getElem hi]
    simp [eraseItem_of_mod file[i] hmod]
  · intro w hw
    obtain ⟨ext, hext, hidx⟩ :=
      foldStatics_index (foreignStatics file) [] helpers hfold
    have hext2 : helpers = ext := by simpa using hext
    rw [hext2] at hw
    obtain ⟨i, hi, hgot⟩ := List.mem_iff_getElem.mp hw
    obtain ⟨s, hmem, f, names, hse, hsp, hval⟩ := hidx i hi
    exact ⟨s, hmem, f, names, List.length ([] : List String) + i + 1,
      hse, hsp, hgot.symm.trans hval⟩

/-- Witness for C6 at the concrete scenario file: the constant position
is unchanged and the foreign-block position holds the placeholder. -/
theorem c6_frame_witness :
    scenarioTree[0]? = some constItem ∧
    scenarioTree[1]? = some (Item.verbatim "") := by
  have h := c6_frame scenarioFile scenarioTree [lookupExpected] (by rfl)
  exact ⟨h.1 0 (by decide) (by rfl), h.2.1 1 (by decide) (by rfl)⟩

/-- C7 (amended): neither formatter invocation has its exit status
checked: the pipeline outcome is the same whatever exit statuses the two
rustfmt runs report, for the primary artifact exactly as for the
secondary one; only a failure to launch the formatter at all is
propagated. -/
theorem c7_fmt_status_ignored (b : Except Unit ProcOutput)
    (parseFile : String → Option (List Item))
    (renderTree : List Item → String) (st1 st2 : ExitStatus) :
    codegen b parseFile renderTree (.ok st1) (.ok st2) =
      codegen b parseFile renderTree (.ok ⟨true⟩) (.ok ⟨true⟩) := by
  unfold codegen
  cases b with
  | error e => rfl
  | ok out =>
    cases hso : out.stdoutUtf8 with
    | none => rfl
    | some bindings =>
      by_cases hsucc : out.status.success = false <;> simp [hsucc]

/-- Counterexample to C7 as stated: a run in which the formatter for the
primary artifact reports a failing exit status still completes with ok,
and the whole outcome is identical to the run where it succeeded, so the
primary formatter exit status is not observed any more than the secondary
one is. -/
theorem c7_counterexample :
    (codegen (.ok ⟨⟨true⟩, some "", some ""⟩) (fun _ => some [])
        (fun _ => "") (.ok ⟨false⟩) (.ok ⟨true⟩)).result = .ok () ∧
    codegen (.ok ⟨⟨true⟩, some "", some ""⟩) (fun _ => some [])
        (fun _ => "") (.ok ⟨false⟩) (.ok ⟨true⟩) =
      codegen (.ok ⟨⟨true⟩, some "", some ""⟩) (fun _ => some [])
        (fun _ => "") (.ok ⟨true⟩) (.ok ⟨true⟩) :=
  ⟨rfl, rfl⟩

/-- C8: a declaration that passes the surface eligibility shape (bpf_
name, Option path, angle-bracketed arguments) but whose first wrapped
argument is not a bare-function type makes the visitor abort at once with
the unreachable panic; no wrapper is emitted and no ok result is
produced. -/
theorem c8_abort_on_non_fn (hs : List String) (s : ForeignItemStatic)
    (seg : PathSegment) (args : List GenArg) (g : GenArg)
    (hty : s.ty = .path seg)
    (hname : strStartsWith s.ident "bpf_" = true)
    (hopt : seg.ident = "Option")
    (hargs : seg.arguments = .angleBracketed args)
    (hhead : args.head? = some g)
    (hnotfn : ∀ f, g ≠ .typeBareFn f) :
    visit_foreign_item_static_mut hs s = .error .unreachableNotBareFn := by
  cases args with
  | nil => simp at hhead
  | cons g0 rest =>
    have hg : g0 = g := by simpa using hhead
    subst hg
    cases g0 with
    | typeBareFn f => exact absurd rfl (hnotfn f)
    | typeOther tk =>
      simp [visit_foreign_item_static_mut, hty, hname, hopt, hargs]
    | otherArg tk =>
      simp [visit_foreign_item_static_mut, hty, hname, hopt, hargs]

/-- Witness for C8: bpf_weird declares Option of u64; the visitor aborts
with the unreachable panic. -/
theorem c8_abort_on_non_fn_witness :
    visit_foreign_item_static_mut [] c8Decl =
      .error .unreachableNotBareFn :=
  c8_abort_on_non_fn [] c8Decl
    ⟨"Option", .angleBracketed [.typeOther "u64"]⟩
    [.typeOther "u64"] (.typeOther "u64") rfl rfl rfl rfl rfl
    (by intro f h; exact GenArg.noConfusion h)

/-- C9: when the generator subprocess reports a failing exit status, its
captured stderr text is the one line forwarded to the error stream, no
file is written, parsing never happens (the parser argument is arbitrary
and unused), and the run aborts with the explicit bindgen-failed error
carrying the exit status. -/
theorem c9_bindgen_failure (out : ProcOutput)
    (parseFile : String → Option (List Item))
    (renderTree : List Item → String)
    (fmt1 fmt2 : Except Unit ExitStatus) (bindings errText : String)
    (hstdout : out.stdoutUtf8 = some bindings)
    (hfail : out.status.success = false)
    (hstderr : out.stderrUtf8 = some errText) :
    codegen (.ok out) parseFile renderTree fmt1 fmt2 =
      ⟨[errText], [], .error (.bindgenFailed out.status)⟩ := by
  simp [codegen, hstdout, hfail, hstderr]

/-- Witness for C9 at a concrete failing generator output. -/
theorem c9_bindgen_failure_witness :
    codegen (.ok ⟨⟨false⟩, some "", some "bindgen exploded"⟩)
        (fun _ => some []) (fun _ => "") (.ok ⟨true⟩) (.ok ⟨true⟩) =
      ⟨["bindgen exploded"], [], .error (.bindgenFailed ⟨false⟩)⟩ :=
  c9_bindgen_failure ⟨⟨false⟩, some "", some "bindgen exploded"⟩
    (fun _ => some []) (fun _ => "") (.ok ⟨true⟩) (.ok ⟨true⟩)
    "" "bindgen exploded" rfl rfl rfl

/-- C10: an eligible-shaped declaration whose bare-function type has an
unnamed parameter makes the visitor abort with the unwrap panic on the
parameter name instead of synthesizing a wrapper, so named parameters on
every eligible helper are an unstated precondition of the pass. -/
theorem c10_unnamed_param_panics (hs : List String) (s : ForeignItemStatic)
    (seg : PathSegment) (args : List GenArg) (f : BareFn) (a : BareFnArg)
    (hty : s.ty = .path seg)
    (hname : strStartsWith s.ident "bpf_" = true)
    (hopt : seg.ident = "Option")
    (hargs : seg.arguments = .angleBracketed args)
    (hhead : args.head? = some (.typeBareFn f))
    (hmem : a ∈ f.inputs)
    (hnone : a.name = none) :
    visit_foreign_item_static_mut hs s = .error .unwrapUnnamedParam := by
  cases args with
  | nil => simp at hhead
  | cons g0 rest =>
    have hg : g0 = GenArg.typeBareFn f := by simpa using hhead
    subst hg
    simp [visit_foreign_item_static_mut, hty, hname, hopt, hargs,
      argNames_none_of_unnamed f.inputs ⟨a, hmem, hnone⟩]

/-- Witness for C10: bpf_mystery has one unnamed pointer parameter; the
visitor aborts with the unwrap panic. -/
theorem c10_unnamed_param_panics_witness :
    visit_foreign_item_static_mut [] c10Decl =
      .error .unwrapUnnamedParam :=
  c10_unnamed_param_panics [] c10Decl
    ⟨"Option", .angleBracketed
      [.typeBareFn ⟨"unsafe extern \"C\"",
        [⟨none, "* mut :: aya_bpf_cty :: c_void"⟩], ""⟩]⟩
    [.typeBareFn ⟨"unsafe extern \"C\"",
      [⟨none, "* mut :: aya_bpf_cty :: c_void"⟩], ""⟩]
    ⟨"unsafe extern \"C\"",
      [⟨none, "* mut :: aya_bpf_cty :: c_void"⟩], ""⟩
    ⟨none, "* mut :: aya_bpf_cty :: c_void"⟩
    rfl rfl rfl rfl rfl (by decide) rfl
